import Mathlib

/-!
Verification development for the line-oriented, prefix-tagged streaming
protocol decoder of the nextjs-react-sse-starter repository.

The embedding models the two client pages:
  * `src/app/debug/page.tsx` — the "compact" protocol variant
    (`parseStreamEvent`, the chunk-reassembly read loop in
    `startStreaming`, and its error handling), and
  * `src/app/page.tsx` — the "semantic" protocol variant
    (`parseStreamLine`, `processEvent`, `startStream`, `stopStream`).

Text is modelled as `List Char`.  Byte streams are `List Nat`, decoded by a
step-wise model of `TextDecoder` in streaming mode.  `JSON.parse` is
modelled by an executable recursive-descent parser (`jsonParse`) with the
simplifications noted on its doc comment; every theorem that depends on a
parse outcome is conditioned on the model parser's result, so those
simplifications cannot flip a statement.  Timestamps (`new Date()`) are
omitted from event records, as every property here is timestamp-independent.
-/

namespace SSE

/-- Decoded text, one JavaScript string character per entry. -/
abbrev Chars := List Char

/-- Left brace character, kept as a named constant. -/
def lbrace : Char := Char.ofNat 123

/-- Right brace character, kept as a named constant. -/
def rbrace : Char := Char.ofNat 125

/-- Whitespace recognised by JavaScript `String.prototype.trim` (restricted
to the ASCII whitespace characters; the exotic Unicode space characters are
not modelled, and no payload in this development contains them). -/
def isWs (c : Char) : Bool :=
  c = ' ' || c = '\t' || c = '\n' || c = '\r' || c = Char.ofNat 11 || c = Char.ofNat 12

/-- Remove leading whitespace. -/
def trimStart (s : Chars) : Chars := s.dropWhile isWs

/-- Remove trailing whitespace. -/
def trimEnd (s : Chars) : Chars := (s.reverse.dropWhile isWs).reverse

/-- Model of JavaScript `String.prototype.trim`: removes whitespace from
both ends of the string. -/
def jsTrim (s : Chars) : Chars := trimEnd (trimStart s)

/-- JavaScript values that a decoded payload can take: the JSON value
universe (numbers restricted to integers) plus nothing else, since payloads
only ever come from `JSON.parse` or are raw strings. -/
inductive JsValue where
  | vNull : JsValue
  | vBool : Bool → JsValue
  | vNum : Int → JsValue
  | vStr : Chars → JsValue
  | vArr : List JsValue → JsValue
  | vObj : List (Chars × JsValue) → JsValue

/-- JavaScript truthiness of a value, used by `event.data || ''`. -/
def jsTruthy : JsValue → Bool
  | .vNull => false
  | .vBool b => b
  | .vNum n => n != 0
  | .vStr s => !s.isEmpty
  | .vArr _ => true
  | .vObj _ => true

/-- Whether a value is `null` (arrays render `null` elements as empty). -/
def isNullV : JsValue → Bool
  | .vNull => true
  | _ => false

/-- Join rendered array elements with commas, as JavaScript `Array.prototype.toString` does. -/
def joinComma : List Chars → Chars
  | [] => []
  | [x] => x
  | x :: xs => x ++ ',' :: joinComma xs

/-- JavaScript string coercion `String(v)` for the modelled value universe:
strings are themselves, numbers and literals render canonically, arrays join
their rendered elements with commas (`null` elements render empty), and
plain objects render as `[object Object]`. -/
def jsToString : JsValue → Chars
  | .vNull => "null".toList
  | .vBool true => "true".toList
  | .vBool false => "false".toList
  | .vNum n => (toString n).toList
  | .vStr s => s
  | .vObj _ => "[object Object]".toList
  | .vArr xs => joinComma (xs.attach.map fun a =>
      if isNullV a.1 then [] else jsToString a.1)
decreasing_by
  have h := List.sizeOf_lt_of_mem a.2
  simp only [JsValue.vArr.sizeOf_spec]
  omega

/-- JSON insignificant whitespace skipper. -/
def skipWs (s : Chars) : Chars :=
  s.dropWhile fun c => c = ' ' || c = '\t' || c = '\n' || c = '\r'

/-- Single-character JSON string escapes (`\uXXXX` escapes are not
modelled; a payload using them is treated as unparsable, which only makes
the raw-string fallback fire — the direction every conditioned theorem
already covers). -/
def escChar (c : Char) : Option Char :=
  if c = '"' then some '"'
  else if c = '\\' then some '\\'
  else if c = '/' then some '/'
  else if c = 'n' then some '\n'
  else if c = 't' then some '\t'
  else if c = 'r' then some '\r'
  else if c = 'b' then some (Char.ofNat 8)
  else if c = 'f' then some (Char.ofNat 12)
  else none

/-- Parse the body of a JSON string after the opening quote, returning the
content and the remainder after the closing quote. -/
def parseStringBody : Nat → Chars → Option (Chars × Chars)
  | 0, _ => none
  | _ + 1, [] => none
  | fuel + 1, c :: rest =>
    if c = '"' then some ([], rest)
    else if c = '\\' then
      match rest with
      | [] => none
      | e :: rest2 =>
        match escChar e with
        | none => none
        | some ch =>
          match parseStringBody fuel rest2 with
          | none => none
          | some (cs, r) => some (ch :: cs, r)
    else
      match parseStringBody fuel rest with
      | none => none
      | some (cs, r) => some (c :: cs, r)

/-- Consume a run of decimal digits, accumulating their value. -/
def digitsAcc (acc : Nat) : Chars → Nat × Chars
  | [] => (acc, [])
  | c :: cs => if c.isDigit then digitsAcc (acc * 10 + (c.toNat - 48)) cs else (acc, c :: cs)

/-- Parse a JSON integer (optional minus sign and a digit run; fractional
and exponent forms are not modelled and fall through to parse failure). -/
def parseNumber (s : Chars) : Option (Int × Chars) :=
  match s with
  | [] => none
  | '-' :: rest =>
    match rest with
    | [] => none
    | c :: _ =>
      if c.isDigit then
        let p := digitsAcc 0 rest
        some (-(p.1 : Int), p.2)
      else none
  | c :: _ =>
    if c.isDigit then
      let p := digitsAcc 0 s
      some ((p.1 : Int), p.2)
    else none

mutual

/-- Parse one JSON value from the front of the input. -/
def parseValue : Nat → Chars → Option (JsValue × Chars)
  | 0, _ => none
  | fuel + 1, s =>
    match skipWs s with
    | [] => none
    | c :: rest =>
      if c = '"' then
        match parseStringBody fuel rest with
        | some (cs, r) => some (.vStr cs, r)
        | none => none
      else if c = lbrace then
        match parseObjRest fuel rest with
        | some (fs, r) => some (.vObj fs, r)
        | none => none
      else if c = '[' then
        match parseArrRest fuel rest with
        | some (vs, r) => some (.vArr vs, r)
        | none => none
      else if ("true".toList).isPrefixOf (c :: rest) then
        some (.vBool true, (c :: rest).drop 4)
      else if ("false".toList).isPrefixOf (c :: rest) then
        some (.vBool false, (c :: rest).drop 5)
      else if ("null".toList).isPrefixOf (c :: rest) then
        some (.vNull, (c :: rest).drop 4)
      else
        match parseNumber (c :: rest) with
        | some (n, r) => some (.vNum n, r)
        | none => none

/-- Parse the rest of a JSON array after the opening bracket. -/
def parseArrRest : Nat → Chars → Option (List JsValue × Chars)
  | 0, _ => none
  | fuel + 1, s =>
    match skipWs s with
    | ']' :: r => some ([], r)
    | _ =>
      match parseValue fuel s with
      | none => none
      | some (v, r) =>
        match parseArrTail fuel r with
        | none => none
        | some (vs, r2) => some (v :: vs, r2)

/-- Parse the remaining elements of a JSON array after one element. -/
def parseArrTail : Nat → Chars → Option (List JsValue × Chars)
  | 0, _ => none
  | fuel + 1, s =>
    match skipWs s with
    | ']' :: r => some ([], r)
    | ',' :: r =>
      match parseValue fuel r with
      | none => none
      | some (v, r2) =>
        match parseArrTail fuel r2 with
        | none => none
        | some (vs, r3) => some (v :: vs, r3)
    | _ => none

/-- Parse one `"key": value` member of a JSON object. -/
def parseMember : Nat → Chars → Option ((Chars × JsValue) × Chars)
  | 0, _ => none
  | fuel + 1, s =>
    match skipWs s with
    | '"' :: r =>
      match parseStringBody fuel r with
      | none => none
      | some (k, r2) =>
        match skipWs r2 with
        | ':' :: r3 =>
          match parseValue fuel r3 with
          | none => none
          | some (v, r4) => some ((k, v), r4)
        | _ => none
    | _ => none

/-- Parse the rest of a JSON object after the opening brace. -/
def parseObjRest : Nat → Chars → Option (List (Chars × JsValue) × Chars)
  | 0, _ => none
  | fuel + 1, s =>
    match skipWs s with
    | [] => none
    | c :: r =>
      if c = rbrace then some ([], r)
      else
        match parseMember fuel s with
        | none => none
        | some (f, r2) =>
          match parseObjTail fuel r2 with
          | none => none
          | some (fs, r3) => some (f :: fs, r3)

/-- Parse the remaining members of a JSON object after one member. -/
def parseObjTail : Nat → Chars → Option (List (Chars × JsValue) × Chars)
  | 0, _ => none
  | fuel + 1, s =>
    match skipWs s with
    | [] => none
    | c :: r =>
      if c = rbrace then some ([], r)
      else if c = ',' then
        match parseMember fuel r with
        | none => none
        | some (f, r2) =>
          match parseObjTail fuel r2 with
          | none => none
          | some (fs, r3) => some (f :: fs, r3)
      else none

end

/-- Model of `JSON.parse`: parse a whole value and require that only
whitespace remains.  Returns `none` exactly where the model's grammar
rejects (where JavaScript would throw a `SyntaxError`). -/
def jsonParse (s : Chars) : Option JsValue :=
  match parseValue (2 * s.length + 8) s with
  | some (v, r) => if skipWs r = [] then some v else none
  | none => none

/-! Chunk Reassembler (src/app/debug/page.tsx, `startStreaming` lines 130-152).

The read loop keeps a `TextDecoder` in streaming mode and a string `buffer`;
each received byte chunk is decoded, appended to the buffer, the buffer is
split on `'\n'`, every complete segment is emitted and the final segment is
retained.  `TextDecoder` with `{ stream: true }` is a byte-at-a-time state
machine whose state is the pending incomplete UTF-8 sequence; it is modelled
here by `decodeStep` folded over the chunk's bytes. -/

/-- The Unicode replacement character emitted for invalid byte sequences. -/
def replChar : Char := Char.ofNat 0xFFFD

/-- Expected length of a UTF-8 sequence from its lead byte (0 for bytes
that cannot start a sequence). -/
def expLen (b : Nat) : Nat :=
  if b < 0x80 then 1
  else if b < 0xC0 then 0
  else if b < 0xE0 then 2
  else if b < 0xF0 then 3
  else if b < 0xF8 then 4
  else 0

/-- Whether a byte is a UTF-8 continuation byte. -/
def contByte (b : Nat) : Bool := decide (0x80 ≤ b) && decide (b < 0xC0)

/-- Assemble the code point of a complete UTF-8 sequence. -/
def seqPoint (bs : List Nat) : Nat :=
  match bs with
  | [] => 0
  | b :: rest =>
    let lead := if b < 0x80 then b else if b < 0xE0 then b - 0xC0
                else if b < 0xF0 then b - 0xE0 else b - 0xF0
    rest.foldl (fun acc c => acc * 64 + (c - 0x80)) lead

/-- Decode a complete UTF-8 sequence to a character, falling back to the
replacement character for invalid code points. -/
def decodeChar (bs : List Nat) : Char :=
  let n := seqPoint bs
  if n.isValidChar then Char.ofNat n else replChar

/-- Process one byte with an empty pending buffer. -/
def freshByte (b : Nat) : List Nat × List Char :=
  if expLen b = 1 then ([], [decodeChar [b]])
  else if expLen b = 0 then ([], [replChar])
  else ([b], [])

/-- One step of the streaming `TextDecoder`: the state is the pending
incomplete UTF-8 sequence, and each byte either completes a character,
extends the pending sequence, or forces a replacement character. -/
def decodeStep (pend : List Nat) (b : Nat) : List Nat × List Char :=
  match pend with
  | [] => freshByte b
  | lead :: _ =>
    if contByte b then
      let p := pend ++ [b]
      if p.length = expLen lead then ([], [decodeChar p]) else (p, [])
    else
      let f := freshByte b
      (f.1, replChar :: f.2)

/-- Decode a whole byte chunk in streaming mode, returning the new pending
state and the characters produced (`decoder.decode(value, { stream: true })`). -/
def decodeChunk (pend : List Nat) : List Nat → List Nat × List Char
  | [] => (pend, [])
  | b :: bs =>
    let s1 := decodeStep pend b
    let s2 := decodeChunk s1.1 bs
    (s2.1, s1.2 ++ s2.2)

/-- Prepend a character to the first segment of a split. -/
def consFirst (c : Char) : List Chars → List Chars
  | [] => [[c]]
  | l :: ls => (c :: l) :: ls

/-- Split a character sequence on `'\n'`, exactly as JavaScript
`String.prototype.split('\n')`: always at least one (possibly empty)
segment, one more segment per newline. -/
def splitNl : Chars → List Chars
  | [] => [[]]
  | c :: cs =>
    if c = '\n' then [] :: splitNl cs else consFirst c (splitNl cs)

/-- Merge the boundary segments of two adjacent splits. -/
def glueHead (x : Chars) : List Chars → List Chars
  | [] => [x]
  | y :: ys => (x ++ y) :: ys

/-- Concatenation of two splits: all but the last segment of the first,
then its last segment glued onto the head of the second. -/
def appendSplit : List Chars → List Chars → List Chars
  | [], ys => ys
  | [x], ys => glueHead x ys
  | x :: xs, ys => x :: appendSplit xs ys

/-- Final segment of a split (JavaScript `lines.pop() || ''`). -/
def lastSeg : List Chars → Chars
  | [] => []
  | [x] => x
  | _ :: xs => lastSeg xs

/-- State of the chunk reassembler: the `TextDecoder`'s pending bytes and
the retained trailing partial line. -/
structure Reasm where
  pend : List Nat
  buf : Chars

/-- Feed one byte chunk to the reassembler: decode it, append to the
buffer, split on newlines, emit every complete segment in order and retain
the final segment (src/app/debug/page.tsx lines 140-144). -/
def feedBytes (st : Reasm) (bytes : List Nat) : Reasm × List Chars :=
  let d := decodeChunk st.pend bytes
  let parts := splitNl (st.buf ++ d.2)
  (⟨d.1, lastSeg parts⟩, parts.dropLast)

/-- Feed a sequence of byte chunks one by one, concatenating emissions. -/
def runFeeds (st : Reasm) : List (List Nat) → Reasm × List Chars
  | [] => (st, [])
  | c :: cs =>
    let r1 := feedBytes st c
    let r2 := runFeeds r1.1 cs
    (r2.1, r1.2 ++ r2.2)

/-- Lines produced when the transport signals stream close: the `done`
branch of the read loop (src/app/debug/page.tsx lines 135-138) logs and
`break`s, performing no further processing, so no line is ever produced
from the residual buffer. -/
def streamClose (_ : Reasm) : List Chars := []

/-! Compact protocol decoder (src/app/debug/page.tsx, `parseStreamEvent`). -/

/-- Event classification of the compact variant. -/
inductive DType where
  | content | toolCall | toolResult | endEv | unknown
deriving DecidableEq

/-- A decoded compact-protocol event (`StreamEvent` in the source; the
timestamp field is omitted). -/
structure DebugEvent where
  pfx : Chars
  data : Chars
  parsed : Option JsValue
  etype : DType

/-- Payload substring of the compact variant: everything after the
two-character tag (`line.slice(2)`). -/
def compactPayload (line : Chars) : Chars := line.drop 2

/-- The `try JSON.parse catch` pattern shared by all matched branches:
the parsed structure on success, the raw string on failure. -/
def jsonOrRaw (d : Chars) : JsValue :=
  match jsonParse d with
  | some v => v
  | none => .vStr d

/-- Model of `parseStreamEvent` (src/app/debug/page.tsx lines 21-96): a
chain of two-character tag checks; matched lines carry the raw payload and
its `jsonOrRaw` parse, unmatched lines become `unknown` events carrying the
whole line. -/
def parseStreamEvent (line : Chars) : DebugEvent :=
  if ("0:".toList).isPrefixOf line then
    ⟨['0'], compactPayload line, some (jsonOrRaw (compactPayload line)), .content⟩
  else if ("9:".toList).isPrefixOf line then
    ⟨['9'], compactPayload line, some (jsonOrRaw (compactPayload line)), .toolCall⟩
  else if ("a:".toList).isPrefixOf line then
    ⟨['a'], compactPayload line, some (jsonOrRaw (compactPayload line)), .toolResult⟩
  else if ("e:".toList).isPrefixOf line then
    ⟨['e'], compactPayload line, some (jsonOrRaw (compactPayload line)), .endEv⟩
  else
    ⟨"unknown".toList, line, none, .unknown⟩

/-! Debug-page session run (src/app/debug/page.tsx, `startStreaming`). -/

/-- Terminal outcome of the debug page's read loop: the `done` branch
(`console.log('Stream completed')`) or the non-abort `catch` branch. -/
inductive DStatus where
  | completed | errored
deriving DecidableEq

/-- The synthetic event the non-abort `catch` branch appends
(src/app/debug/page.tsx lines 158-163). -/
def syntheticErrorEvent (msg : Chars) : DebugEvent :=
  ⟨"error".toList, "Error: ".toList ++ msg, none, .unknown⟩

/-- Process one chunk inside the debug read loop: reassemble lines, skip
whitespace-only lines, decode each remaining line and append its event
(src/app/debug/page.tsx lines 140-151). -/
def debugStep (st : Reasm × List DebugEvent) (bytes : List Nat) :
    Reasm × List DebugEvent :=
  let r := feedBytes st.1 bytes
  (r.1, st.2 ++ (r.2.filter fun l => !(jsTrim l).isEmpty).map parseStreamEvent)

/-- The read loop with a fault schedule: `errAt = some k` means the
`k`-th call to `reader.read()` throws (a network failure); the `catch`
branch then appends the synthetic error event.  Reads are counted from 0;
the read that would report `done` is read number `chunks.length`. -/
def debugGo (msg : Chars) : Option Nat → Reasm × List DebugEvent →
    List (List Nat) → List DebugEvent × DStatus
  | errAt, st, [] =>
    if errAt = some 0 then (st.2 ++ [syntheticErrorEvent msg], .errored)
    else (st.2, .completed)
  | errAt, st, c :: cs =>
    if errAt = some 0 then (st.2 ++ [syntheticErrorEvent msg], .errored)
    else debugGo msg (errAt.map fun n => n - 1) (debugStep st c) cs

/-- Model of `startStreaming` (src/app/debug/page.tsx lines 98-168): the
event list is cleared, then either the response is not ok — the function
throws immediately and the `catch` branch records the synthetic error — or
the read loop consumes the chunks under the fault schedule. -/
def debugRun (ok : Bool) (chunks : List (List Nat)) (errAt : Option Nat)
    (msg : Chars) : List DebugEvent × DStatus :=
  if ok then debugGo msg errAt (⟨[], []⟩, []) chunks
  else ([syntheticErrorEvent msg], .errored)

/-! Semantic protocol decoder and dispatcher (src/app/page.tsx). -/

/-- Event classification of the semantic variant. -/
inductive CType where
  | text | functionCall | functionResponse | metadata | debug
deriving DecidableEq

/-- A decoded semantic-protocol event (`CustomStreamEvent` in the source;
the timestamp field is omitted). -/
structure CEvent where
  etype : CType
  data : JsValue
  raw : Chars

/-- Payload substring handed to `JSON.parse` by the semantic variant:
the line with the matched tag removed and the remainder trimmed on both
ends (`line.slice(p.length).trim()`). -/
def semPayload (p line : Chars) : Chars := jsTrim (line.drop p.length)

/-- One matched branch of `parseStreamLine`: parse the trimmed payload and
build the event, or return `null` when the parse fails. -/
def semBranch (t : CType) (p line : Chars) : Option CEvent :=
  match jsonParse (semPayload p line) with
  | some v => some ⟨t, v, line⟩
  | none => none

/-- Model of `parseStreamLine` (src/app/page.tsx lines 45-127): blank lines
give `null`; each protocol tag is tried with `startsWith`; a matched line
whose payload fails to parse gives `null` (the `catch` branches return
`null`); a line matching no tag gives `null` (the final `return null`). -/
def parseStreamLine (line : Chars) : Option CEvent :=
  if (jsTrim line).isEmpty then none
  else if ("TEXT:".toList).isPrefixOf line then
    semBranch .text ("TEXT:".toList) line
  else if ("FUNC:".toList).isPrefixOf line then
    semBranch .functionCall ("FUNC:".toList) line
  else if ("RESP:".toList).isPrefixOf line then
    semBranch .functionResponse ("RESP:".toList) line
  else if ("META:".toList).isPrefixOf line then
    semBranch .metadata ("META:".toList) line
  else if ("DEBUG:".toList).isPrefixOf line then
    semBranch .debug ("DEBUG:".toList) line
  else none

/-- Observable state of the semantic demo page: the accumulated response
text, the ordered event log, the streaming flag, and the abort-controller
generation (incremented whenever `new AbortController()` is assigned). -/
structure AppState where
  responseText : Chars
  events : List CEvent
  isStreaming : Bool
  abortGen : Nat

/-- Model of `processEvent` (src/app/page.tsx lines 129-165): the event is
appended to the event log first; a `text` event then appends
`event.data || ''` to the response text (JavaScript `||` yields the empty
string for falsy data, and `+` coerces the value to a string); the
`function-call`, `function-response`, `metadata` and `debug` branches only
log to the console and change no observable state. -/
def processEvent (st : AppState) (e : CEvent) : AppState :=
  let st1 := { st with events := st.events ++ [e] }
  match e.etype with
  | .text =>
    { st1 with responseText :=
        st1.responseText ++ (if jsTruthy e.data then jsToString e.data else []) }
  | _ => st1

/-- Process one string chunk of the semantic page's loop: split on
newlines, skip blank segments, decode and dispatch each event
(src/app/page.tsx lines 200-209). -/
def processChunk (st : AppState) (chunk : Chars) : AppState :=
  (splitNl chunk).foldl
    (fun st line =>
      if (jsTrim line).isEmpty then st
      else
        match parseStreamLine line with
        | some ev => processEvent st ev
        | none => st)
    st

/-- Exit path of the semantic page's chunk loop: the natural end of the
stream, or the `break` taken when the abort signal is observed. -/
inductive ExitStatus where
  | completed | aborted
deriving DecidableEq

/-- Whether the abort signal (raised by `stopStream` before chunk `k`
arrives) is observed at iteration `i`.  JavaScript's event loop only runs
the `stopStream` click handler while the loop is suspended awaiting the
next chunk, so the signal is observed exactly at chunk boundaries, where
the loop checks `signal.aborted`. -/
def isAbortedAt : Option Nat → Nat → Bool
  | none, _ => false
  | some k, i => decide (k ≤ i)

/-- The chunk loop of `startStream` (src/app/page.tsx lines 195-213): check
the abort signal, then split and dispatch the chunk. -/
def streamLoop (abortAt : Option Nat) : Nat → AppState → List Chars →
    AppState × ExitStatus
  | _, st, [] => (st, .completed)
  | i, st, c :: cs =>
    if isAbortedAt abortAt i then (st, .aborted)
    else streamLoop abortAt (i + 1) (processChunk st c) cs

/-- Dispatch every chunk with no abort signal. -/
def runAll (st : AppState) (chunks : List Chars) : AppState :=
  chunks.foldl processChunk st

/-- Session start (src/app/page.tsx lines 170-174): set the streaming flag,
clear the response text and the event log, install a fresh abort
controller. -/
def beginSession (st : AppState) : AppState :=
  { st with isStreaming := true, responseText := [], events := [],
            abortGen := st.abortGen + 1 }

/-- Model of `startStream` (src/app/page.tsx lines 167-220): a no-op while
already streaming (line 168), otherwise the session is reset and the chunk
loop runs to its exit, after which the `finally` block clears the streaming
flag.  `abortAt = some k` means `stopStream` fires while the loop awaits
chunk `k`. -/
def startStream (abortAt : Option Nat) (st : AppState) (chunks : List Chars) :
    AppState × Option ExitStatus :=
  if st.isStreaming then (st, none)
  else
    let r := streamLoop abortAt 0 (beginSession st) chunks
    ({ r.1 with isStreaming := false }, some r.2)

/-! Spec-side definitions used only to compare against the code. -/

/-- Payload extraction as §4.2 of the spec words it: strip exactly the
matched tag and one immediately-following whitespace run, nothing else. -/
def specStripPayload (p line : Chars) : Chars :=
  (line.drop p.length).dropWhile isWs

/-! Lemmas about newline splitting and chunk reassembly. -/

theorem consFirst_ne_nil (c : Char) (xs : List Chars) : consFirst c xs ≠ [] := by
  cases xs <;> simp [consFirst]

theorem splitNl_ne_nil (cs : Chars) : splitNl cs ≠ [] := by
  induction cs with
  | nil => simp [splitNl]
  | cons c cs ih =>
    by_cases h : c = '\n' <;> simp [splitNl, h, consFirst_ne_nil]

theorem glueHead_ne_nil (x : Chars) (ys : List Chars) : glueHead x ys ≠ [] := by
  cases ys <;> simp [glueHead]

theorem glueHead_nil_left (ys : List Chars) (h : ys ≠ []) : glueHead [] ys = ys := by
  cases ys with
  | nil => exact absurd rfl h
  | cons y ys => simp [glueHead]

theorem appendSplit_cons (x : Chars) (xs ys : List Chars) (h : xs ≠ []) :
    appendSplit (x :: xs) ys = x :: appendSplit xs ys := by
  cases xs with
  | nil => exact absurd rfl h
  | cons a as => rfl

theorem consFirst_appendSplit (c : Char) (s t : List Chars)
    (hs : s ≠ []) (ht : t ≠ []) :
    consFirst c (appendSplit s t) = appendSplit (consFirst c s) t := by
  cases s with
  | nil => exact absurd rfl hs
  | cons x s' =>
    cases s' with
    | nil =>
      cases t with
      | nil => exact absurd rfl ht
      | cons y ys => simp [appendSplit, glueHead, consFirst]
    | cons x' s'' =>
      rw [appendSplit_cons x (x' :: s'') t (by simp)]
      simp only [consFirst]
      rw [appendSplit_cons (c :: x) (x' :: s'') t (by simp)]

theorem splitNl_append (a b : Chars) :
    splitNl (a ++ b) = appendSplit (splitNl a) (splitNl b) := by
  induction a with
  | nil =>
    simp only [List.nil_append, splitNl, appendSplit]
    rw [glueHead_nil_left _ (splitNl_ne_nil b)]
  | cons c a ih =>
    rw [List.cons_append, splitNl, splitNl]
    by_cases h : c = '\n'
    · rw [if_pos h, if_pos h, ih, appendSplit_cons _ _ _ (splitNl_ne_nil a)]
    · rw [if_neg h, if_neg h, ih]
      exact consFirst_appendSplit c _ _ (splitNl_ne_nil a) (splitNl_ne_nil b)

theorem lastSeg_cons (x : Chars) (s : List Chars) (h : s ≠ []) :
    lastSeg (x :: s) = lastSeg s := by
  cases s with
  | nil => exact absurd rfl h
  | cons y ys => rfl

theorem dropLast_append_ne (xs ys : List Chars) (h : ys ≠ []) :
    (xs ++ ys).dropLast = xs ++ ys.dropLast := by
  induction xs with
  | nil => simp
  | cons x xs ih =>
    cases hxy : xs ++ ys with
    | nil => exact absurd (List.append_eq_nil.mp hxy).2 h
    | cons z zs =>
      calc ((x :: xs) ++ ys).dropLast
          = (x :: (xs ++ ys)).dropLast := by rw [List.cons_append]
        _ = x :: (xs ++ ys).dropLast := by rw [hxy]; rfl
        _ = x :: (xs ++ ys.dropLast) := by rw [ih]
        _ = (x :: xs) ++ ys.dropLast := by rw [List.cons_append]

theorem lastSeg_append_ne (xs ys : List Chars) (h : ys ≠ []) :
    lastSeg (xs ++ ys) = lastSeg ys := by
  induction xs with
  | nil => simp
  | cons x xs ih =>
    rw [List.cons_append, lastSeg_cons _ _ (by simp [h]), ih]

theorem appendSplit_eq (s t : List Chars) (hs : s ≠ []) :
    appendSplit s t = s.dropLast ++ glueHead (lastSeg s) t := by
  induction s with
  | nil => exact absurd rfl hs
  | cons x s' ih =>
    cases s' with
    | nil => simp [appendSplit, lastSeg]
    | cons x' s'' =>
      rw [appendSplit_cons x (x' :: s'') t (by simp), ih (by simp),
        lastSeg_cons x (x' :: s'') (by simp)]
      rfl

theorem mem_lastSeg_splitNl_ne_nl (cs : Chars) :
    ∀ c ∈ lastSeg (splitNl cs), c ≠ '\n' := by
  induction cs with
  | nil => simp [splitNl, lastSeg]
  | cons c cs ih =>
    rw [splitNl]
    by_cases h : c = '\n'
    · rw [if_pos h, lastSeg_cons _ _ (splitNl_ne_nil cs)]
      exact ih
    · rw [if_neg h]
      cases hs : splitNl cs with
      | nil => exact absurd hs (splitNl_ne_nil cs)
      | cons l ls =>
        rw [hs] at ih
        cases ls with
        | nil =>
          simp only [consFirst, lastSeg]
          intro x hx
          rcases List.mem_cons.mp hx with hx | hx
          · simpa [hx] using h
          · exact ih x (by simpa [lastSeg] using hx)
        | cons l' ls' =>
          simp only [consFirst]
          rw [lastSeg_cons _ _ (by simp)]
          rw [lastSeg_cons _ _ (by simp)] at ih
          exact ih

theorem splitNl_of_no_nl (l : Chars) (h : ∀ c ∈ l, c ≠ '\n') :
    splitNl l = [l] := by
  induction l with
  | nil => simp [splitNl]
  | cons c cs ih =>
    have hc : c ≠ '\n' := h c (by simp)
    rw [splitNl, if_neg hc, ih fun x hx => h x (by simp [hx])]
    simp [consFirst]

theorem decodeChunk_append (p : List Nat) (a b : List Nat) :
    decodeChunk p (a ++ b) =
      ((decodeChunk (decodeChunk p a).1 b).1,
       (decodeChunk p a).2 ++ (decodeChunk (decodeChunk p a).1 b).2) := by
  induction a generalizing p with
  | nil => simp [decodeChunk]
  | cons x xs ih => simp [decodeChunk, ih]

theorem feedBytes_append (st : Reasm) (a b : List Nat) :
    feedBytes st (a ++ b) =
      ((feedBytes (feedBytes st a).1 b).1,
       (feedBytes st a).2 ++ (feedBytes (feedBytes st a).1 b).2) := by
  have hd := decodeChunk_append st.pend a b
  simp only [feedBytes, hd]
  have hsplit :
      splitNl (st.buf ++ ((decodeChunk st.pend a).2 ++
        (decodeChunk (decodeChunk st.pend a).1 b).2)) =
      appendSplit (splitNl (st.buf ++ (decodeChunk st.pend a).2))
        (splitNl (decodeChunk (decodeChunk st.pend a).1 b).2) := by
    rw [← List.append_assoc, splitNl_append]
  set s1 := splitNl (st.buf ++ (decodeChunk st.pend a).2) with hs1
  set s2 := splitNl (decodeChunk (decodeChunk st.pend a).1 b).2 with hs2
  have hs1ne : s1 ≠ [] := splitNl_ne_nil _
  have hs2ne : s2 ≠ [] := splitNl_ne_nil _
  have hlast : splitNl (lastSeg s1 ++ (decodeChunk (decodeChunk st.pend a).1 b).2)
      = glueHead (lastSeg s1) s2 := by
    rw [splitNl_append, splitNl_of_no_nl (lastSeg s1) (by rw [hs1]; exact mem_lastSeg_splitNl_ne_nl _), ← hs2]
    rfl
  simp only [hsplit, hlast, appendSplit_eq s1 s2 hs1ne]
  rw [lastSeg_append_ne _ _ (glueHead_ne_nil _ _),
    dropLast_append_ne _ _ (glueHead_ne_nil _ _)]

theorem runFeeds_flatten (chunks : List (List Nat)) (st : Reasm)
    (h : chunks ≠ []) : runFeeds st chunks = feedBytes st chunks.flatten := by
  induction chunks generalizing st with
  | nil => exact absurd rfl h
  | cons c cs ih =>
    cases cs with
    | nil => simp [runFeeds, List.flatten]
    | cons c' cs' =>
      have hstep : runFeeds st (c :: c' :: cs')
          = ((runFeeds (feedBytes st c).1 (c' :: cs')).1,
             (feedBytes st c).2 ++ (runFeeds (feedBytes st c).1 (c' :: cs')).2) := rfl
      rw [hstep, ih _ (by simp),
        show (c :: c' :: cs').flatten = c ++ (c' :: cs').flatten from rfl,
        feedBytes_append]

/-! Lemmas about the two prefix decoders. -/

theorem isPrefixOf_excl {a b : Char} {u v line : Chars}
    (h : (a :: u).isPrefixOf line = true) (hne : b ≠ a) :
    (b :: v).isPrefixOf line = false := by
  cases line with
  | nil => simp [List.isPrefixOf] at h
  | cons c cs =>
    simp only [List.isPrefixOf, Bool.and_eq_true, beq_iff_eq] at h
    simp only [List.isPrefixOf]
    rw [show (b == c) = false by
      rw [beq_eq_false_iff_ne]
      exact h.1 ▸ hne]
    rfl

theorem isPrefixOf_cons_ex {a : Char} {u line : Chars}
    (h : (a :: u).isPrefixOf line = true) : ∃ cs, line = a :: cs := by
  cases line with
  | nil => simp [List.isPrefixOf] at h
  | cons c cs =>
    simp only [List.isPrefixOf, Bool.and_eq_true, beq_iff_eq] at h
    exact ⟨cs, by rw [h.1]⟩

theorem jsTrim_cons_not_ws {c : Char} (cs : Chars) (h : isWs c = false) :
    (jsTrim (c :: cs)).isEmpty = false := by
  rw [jsTrim, trimStart, List.dropWhile_cons, h]
  simp only [Bool.false_eq_true, if_false, trimEnd, List.isEmpty_eq_false,
    ne_eq, List.reverse_eq_nil_iff]
  intro hnil
  have := List.dropWhile_eq_nil_iff.mp hnil c (by simp)
  rw [h] at this
  exact absurd this (by simp)

theorem parseStreamEvent_content {line : Chars}
    (h : ("0:".toList).isPrefixOf line = true) :
    parseStreamEvent line =
      ⟨['0'], compactPayload line, some (jsonOrRaw (compactPayload line)), .content⟩ := by
  rw [parseStreamEvent, if_pos h]

theorem parseStreamEvent_toolCall {line : Chars}
    (h : ("9:".toList).isPrefixOf line = true) :
    parseStreamEvent line =
      ⟨['9'], compactPayload line, some (jsonOrRaw (compactPayload line)), .toolCall⟩ := by
  have h' : ('9' :: [':']).isPrefixOf line = true := h
  rw [parseStreamEvent,
    if_neg (by rw [show ("0:".toList).isPrefixOf line = false from
      isPrefixOf_excl h' (by decide)]; simp), if_pos h]

theorem parseStreamEvent_toolResult {line : Chars}
    (h : ("a:".toList).isPrefixOf line = true) :
    parseStreamEvent line =
      ⟨['a'], compactPayload line, some (jsonOrRaw (compactPayload line)), .toolResult⟩ := by
  have h' : ('a' :: [':']).isPrefixOf line = true := h
  rw [parseStreamEvent,
    if_neg (by rw [show ("0:".toList).isPrefixOf line = false from
      isPrefixOf_excl h' (by decide)]; simp),
    if_neg (by rw [show ("9:".toList).isPrefixOf line = false from
      isPrefixOf_excl h' (by decide)]; simp), if_pos h]

theorem parseStreamEvent_endEv {line : Chars}
    (h : ("e:".toList).isPrefixOf line = true) :
    parseStreamEvent line =
      ⟨['e'], compactPayload line, some (jsonOrRaw (compactPayload line)), .endEv⟩ := by
  have h' : ('e' :: [':']).isPrefixOf line = true := h
  rw [parseStreamEvent,
    if_neg (by rw [show ("0:".toList).isPrefixOf line = false from
      isPrefixOf_excl h' (by decide)]; simp),
    if_neg (by rw [show ("9:".toList).isPrefixOf line = false from
      isPrefixOf_excl h' (by decide)]; simp),
    if_neg (by rw [show ("a:".toList).isPrefixOf line = false from
      isPrefixOf_excl h' (by decide)]; simp), if_pos h]

theorem parseStreamEvent_unknown {line : Chars}
    (h0 : ("0:".toList).isPrefixOf line = false)
    (h9 : ("9:".toList).isPrefixOf line = false)
    (ha : ("a:".toList).isPrefixOf line = false)
    (he : ("e:".toList).isPrefixOf line = false) :
    parseStreamEvent line = ⟨"unknown".toList, line, none, .unknown⟩ := by
  rw [parseStreamEvent, if_neg (by rw [h0]; simp), if_neg (by rw [h9]; simp),
    if_neg (by rw [ha]; simp), if_neg (by rw [he]; simp)]

theorem parseStreamLine_notBlank_of_head {line : Chars} {a : Char} {u : Chars}
    (h : (a :: u).isPrefixOf line = true) (hws : isWs a = false) :
    ¬ ((jsTrim line).isEmpty = true) := by
  obtain ⟨cs, rfl⟩ := isPrefixOf_cons_ex h
  rw [jsTrim_cons_not_ws cs hws]
  simp

theorem parseStreamLine_text {line : Chars}
    (h : ("TEXT:".toList).isPrefixOf line = true) :
    parseStreamLine line = semBranch .text ("TEXT:".toList) line := by
  have h' : ('T' :: "EXT:".toList).isPrefixOf line = true := h
  rw [parseStreamLine, if_neg (parseStreamLine_notBlank_of_head h' (by decide)),
    if_pos h]

theorem parseStreamLine_func {line : Chars}
    (h : ("FUNC:".toList).isPrefixOf line = true) :
    parseStreamLine line = semBranch .functionCall ("FUNC:".toList) line := by
  have h' : ('F' :: "UNC:".toList).isPrefixOf line = true := h
  rw [parseStreamLine, if_neg (parseStreamLine_notBlank_of_head h' (by decide)),
    if_neg (by rw [show ("TEXT:".toList).isPrefixOf line = false from
      isPrefixOf_excl h' (by decide)]; simp), if_pos h]

theorem parseStreamLine_resp {line : Chars}
    (h : ("RESP:".toList).isPrefixOf line = true) :
    parseStreamLine line = semBranch .functionResponse ("RESP:".toList) line := by
  have h' : ('R' :: "ESP:".toList).isPrefixOf line = true := h
  rw [parseStreamLine, if_neg (parseStreamLine_notBlank_of_head h' (by decide)),
    if_neg (by rw [show ("TEXT:".toList).isPrefixOf line = false from
      isPrefixOf_excl h' (by decide)]; simp),
    if_neg (by rw [show ("FUNC:".toList).isPrefixOf line = false from
      isPrefixOf_excl h' (by decide)]; simp), if_pos h]

theorem parseStreamLine_meta {line : Chars}
    (h : ("META:".toList).isPrefixOf line = true) :
    parseStreamLine line = semBranch .metadata ("META:".toList) line := by
  have h' : ('M' :: "ETA:".toList).isPrefixOf line = true := h
  rw [parseStreamLine, if_neg (parseStreamLine_notBlank_of_head h' (by decide)),
    if_neg (by rw [show ("TEXT:".toList).isPrefixOf line = false from
      isPrefixOf_excl h' (by decide)]; simp),
    if_neg (by rw [show ("FUNC:".toList).isPrefixOf line = false from
      isPrefixOf_excl h' (by decide)]; simp),
    if_neg (by rw [show ("RESP:".toList).isPrefixOf line = false from
      isPrefixOf_excl h' (by decide)]; simp), if_pos h]

theorem parseStreamLine_debug {line : Chars}
    (h : ("DEBUG:".toList).isPrefixOf line = true) :
    parseStreamLine line = semBranch .debug ("DEBUG:".toList) line := by
  have h' : ('D' :: "EBUG:".toList).isPrefixOf line = true := h
  rw [parseStreamLine, if_neg (parseStreamLine_notBlank_of_head h' (by decide)),
    if_neg (by rw [show ("TEXT:".toList).isPrefixOf line = false from
      isPrefixOf_excl h' (by decide)]; simp),
    if_neg (by rw [show ("FUNC:".toList).isPrefixOf line = false from
      isPrefixOf_excl h' (by decide)]; simp),
    if_neg (by rw [show ("RESP:".toList).isPrefixOf line = false from
      isPrefixOf_excl h' (by decide)]; simp),
    if_neg (by rw [show ("META:".toList).isPrefixOf line = false from
      isPrefixOf_excl h' (by decide)]; simp), if_pos h]

theorem parseStreamLine_noMatch {line : Chars}
    (hb : (jsTrim line).isEmpty = false)
    (ht : ("TEXT:".toList).isPrefixOf line = false)
    (hf : ("FUNC:".toList).isPrefixOf line = false)
    (hr : ("RESP:".toList).isPrefixOf line = false)
    (hm : ("META:".toList).isPrefixOf line = false)
    (hd : ("DEBUG:".toList).isPrefixOf line = false) :
    parseStreamLine line = none := by
  rw [parseStreamLine, if_neg (by rw [hb]; simp), if_neg (by rw [ht]; simp),
    if_neg (by rw [hf]; simp), if_neg (by rw [hr]; simp),
    if_neg (by rw [hm]; simp), if_neg (by rw [hd]; simp)]

/-! Lemmas about the dispatcher and the session loops. -/

theorem processEvent_events (st : AppState) (e : CEvent) :
    (processEvent st e).events = st.events ++ [e] := by
  cases e with
  | mk t d r => cases t <;> rfl

theorem foldl_processEvent_events (evs : List CEvent) (st : AppState) :
    (evs.foldl processEvent st).events = st.events ++ evs := by
  induction evs generalizing st with
  | nil => simp
  | cons e es ih =>
    rw [List.foldl_cons, ih, processEvent_events]
    simp

theorem streamLoop_none_eq (cs : List Chars) (i : Nat) (st : AppState) :
    streamLoop none i st cs = (runAll st cs, .completed) := by
  induction cs generalizing i st with
  | nil => rfl
  | cons c cs ih =>
    rw [streamLoop, show isAbortedAt none i = false from rfl]
    simp only [Bool.false_eq_true, if_false, ih, runAll, List.foldl_cons]

theorem streamLoop_abort (k : Nat) (cs : List Chars) (i : Nat) (st : AppState)
    (hik : i ≤ k) (hlen : k - i < cs.length) :
    streamLoop (some k) i st cs = (runAll st (cs.take (k - i)), .aborted) := by
  induction cs generalizing i st with
  | nil => simp at hlen
  | cons c cs ih =>
    by_cases hk : k ≤ i
    · have hki : k = i := le_antisymm hk hik
      rw [streamLoop, show isAbortedAt (some k) i = true by
        simp [isAbortedAt, hk]]
      simp [hki, runAll]
    · push_neg at hk
      rw [streamLoop, show isAbortedAt (some k) i = false by
        simp [isAbortedAt]; omega]
      simp only [Bool.false_eq_true, if_false]
      rw [ih (i + 1) (processChunk st c) (by omega) (by simp at hlen ⊢; omega)]
      have htake : (c :: cs).take (k - i) = c :: cs.take (k - (i + 1)) := by
        have : k - i = (k - (i + 1)) + 1 := by omega
        rw [this, List.take_succ_cons]
      rw [htake]
      simp [runAll]

theorem debugGo_none_eq (msg : Chars) (cs : List (List Nat))
    (st : Reasm × List DebugEvent) :
    debugGo msg none st cs = ((cs.foldl debugStep st).2, .completed) := by
  induction cs generalizing st with
  | nil => rfl
  | cons c cs ih =>
    rw [debugGo, if_neg (by simp), show (none : Option Nat).map (fun n => n - 1) = none from rfl, ih]
    rfl

theorem debugGo_err (msg : Chars) (k : Nat) (cs : List (List Nat))
    (st : Reasm × List DebugEvent) (hk : k ≤ cs.length) :
    debugGo msg (some k) st cs
      = ((debugGo msg none st (cs.take k)).1 ++ [syntheticErrorEvent msg],
         .errored) := by
  induction cs generalizing k st with
  | nil =>
    have hk0 : k = 0 := Nat.le_zero.mp hk
    subst hk0
    rfl
  | cons c cs ih =>
    cases k with
    | zero => rfl
    | succ k' =>
      rw [debugGo, if_neg (by simp),
        show (some (k' + 1)).map (fun n => n - 1) = some k' from rfl,
        ih k' (debugStep st c) (by simpa using hk)]
      rw [show (c :: cs).take (k' + 1) = c :: cs.take k' from rfl]
      rw [show debugGo msg none st (c :: cs.take k')
            = debugGo msg none (debugStep st c) (cs.take k') by
        rw [debugGo, if_neg (by simp)]; rfl]

/-! Claim theorems. -/

/-- C1: For every complete byte stream and every partition of it into
chunks — including splits mid-line and mid-multibyte-character — feeding the
chunks one by one to the Chunk Reassembler produces the identical ordered
sequence of RawLines (and the identical final reassembler state) as feeding
the whole stream as a single chunk. -/
theorem c1_chunk_reassembly_invariant (chunks : List (List Nat)) :
    runFeeds ⟨[], []⟩ chunks = feedBytes ⟨[], []⟩ chunks.flatten := by
  cases chunks with
  | nil => rfl
  | cons c cs => exact runFeeds_flatten _ _ (by simp)

/-- C2 counterexample: the claim asserts that in both protocol variants a
line matching no registered tag yields an `Unknown` event whose payload is
the raw line; but the semantic variant's `parseStreamLine` returns `null`
for the unmatched non-blank line `hello` — no event of any kind is produced
(its event type does not even have an Unknown kind). -/
theorem c2_counterexample : parseStreamLine ("hello".toList) = none := by rfl

/-- C2 (amended): in the compact variant an unmatched line always yields an
`unknown` event carrying the original raw line, never an error; in the
semantic variant an unmatched non-blank line yields no event at all — it is
silently dropped, likewise without an error. -/
theorem c2_unmatched_lines :
    (∀ line : Chars,
      ("0:".toList).isPrefixOf line = false →
      ("9:".toList).isPrefixOf line = false →
      ("a:".toList).isPrefixOf line = false →
      ("e:".toList).isPrefixOf line = false →
      parseStreamEvent line = ⟨"unknown".toList, line, none, .unknown⟩)
    ∧ (∀ line : Chars,
      (jsTrim line).isEmpty = false →
      ("TEXT:".toList).isPrefixOf line = false →
      ("FUNC:".toList).isPrefixOf line = false →
      ("RESP:".toList).isPrefixOf line = false →
      ("META:".toList).isPrefixOf line = false →
      ("DEBUG:".toList).isPrefixOf line = false →
      parseStreamLine line = none) :=
  ⟨fun _ h0 h9 ha he => parseStreamEvent_unknown h0 h9 ha he,
   fun _ hb ht hf hr hm hd => parseStreamLine_noMatch hb ht hf hr hm hd⟩

/-- C2 witness: concrete instantiation at the unmatched line `zzz`. -/
theorem c2_witness :
    parseStreamEvent ("zzz".toList)
      = ⟨"unknown".toList, "zzz".toList, none, .unknown⟩
    ∧ parseStreamLine ("zzz".toList) = none :=
  ⟨c2_unmatched_lines.1 ("zzz".toList) (by decide) (by decide) (by decide)
      (by decide),
   c2_unmatched_lines.2 ("zzz".toList) (by decide) (by decide) (by decide)
      (by decide) (by decide) (by decide)⟩

/-- C3 counterexample: the claim (and the spec's own scenario) says a
matched line with an unparsable payload keeps its tabled kind with the raw
payload string in both variants; but the semantic variant drops the line
`TEXT: \x7bnot json` entirely — `parseStreamLine` returns `null`. -/
theorem c3_counterexample :
    parseStreamLine ("TEXT: \x7bnot json".toList) = none := by rfl

/-- C3 (amended): when the payload fails to parse as JSON, the compact
variant keeps the event with the kind assigned by the tag and the raw
payload string (never an error, never dropped); the semantic variant
propagates no error either, but the event IS dropped — `parseStreamLine`
returns `null` and the line vanishes. -/
theorem c3_parse_failure :
    (∀ line : Chars, ("0:".toList).isPrefixOf line = true →
      jsonParse (compactPayload line) = none →
      parseStreamEvent line =
        ⟨['0'], compactPayload line, some (.vStr (compactPayload line)), .content⟩)
    ∧ (∀ line : Chars, ("9:".toList).isPrefixOf line = true →
      jsonParse (compactPayload line) = none →
      parseStreamEvent line =
        ⟨['9'], compactPayload line, some (.vStr (compactPayload line)), .toolCall⟩)
    ∧ (∀ line : Chars, ("a:".toList).isPrefixOf line = true →
      jsonParse (compactPayload line) = none →
      parseStreamEvent line =
        ⟨['a'], compactPayload line, some (.vStr (compactPayload line)), .toolResult⟩)
    ∧ (∀ line : Chars, ("e:".toList).isPrefixOf line = true →
      jsonParse (compactPayload line) = none →
      parseStreamEvent line =
        ⟨['e'], compactPayload line, some (.vStr (compactPayload line)), .endEv⟩)
    ∧ (∀ line : Chars, ("TEXT:".toList).isPrefixOf line = true →
      jsonParse (semPayload ("TEXT:".toList) line) = none →
      parseStreamLine line = none)
    ∧ (∀ line : Chars, ("FUNC:".toList).isPrefixOf line = true →
      jsonParse (semPayload ("FUNC:".toList) line) = none →
      parseStreamLine line = none)
    ∧ (∀ line : Chars, ("RESP:".toList).isPrefixOf line = true →
      jsonParse (semPayload ("RESP:".toList) line) = none →
      parseStreamLine line = none)
    ∧ (∀ line : Chars, ("META:".toList).isPrefixOf line = true →
      jsonParse (semPayload ("META:".toList) line) = none →
      parseStreamLine line = none)
    ∧ (∀ line : Chars, ("DEBUG:".toList).isPrefixOf line = true →
      jsonParse (semPayload ("DEBUG:".toList) line) = none →
      parseStreamLine line = none) := by
  refine ⟨fun line h hp => ?_, fun line h hp => ?_, fun line h hp => ?_,
    fun line h hp => ?_, fun line h hp => ?_, fun line h hp => ?_,
    fun line h hp => ?_, fun line h hp => ?_, fun line h hp => ?_⟩
  · rw [parseStreamEvent_content h]; simp [jsonOrRaw, hp]
  · rw [parseStreamEvent_toolCall h]; simp [jsonOrRaw, hp]
  · rw [parseStreamEvent_toolResult h]; simp [jsonOrRaw, hp]
  · rw [parseStreamEvent_endEv h]; simp [jsonOrRaw, hp]
  · rw [parseStreamLine_text h]; unfold semBranch; rw [hp]
  · rw [parseStreamLine_func h]; unfold semBranch; rw [hp]
  · rw [parseStreamLine_resp h]; unfold semBranch; rw [hp]
  · rw [parseStreamLine_meta h]; unfold semBranch; rw [hp]
  · rw [parseStreamLine_debug h]; unfold semBranch; rw [hp]

/-- C3 witness: concrete instantiations with the unparsable payload `\x7bx`. -/
theorem c3_witness :
    parseStreamEvent ("0:\x7bx".toList) =
      ⟨['0'], compactPayload ("0:\x7bx".toList),
        some (.vStr (compactPayload ("0:\x7bx".toList))), .content⟩
    ∧ parseStreamLine ("TEXT: \x7bx".toList) = none :=
  ⟨c3_parse_failure.1 ("0:\x7bx".toList) (by decide) (by rfl),
   c3_parse_failure.2.2.2.2.1 ("TEXT: \x7bx".toList) (by decide) (by rfl)⟩

/-- C4 counterexample: after feeding the unterminated stream `0:"A"` (no
trailing newline) the residual buffer is non-empty, yet the close signal
produces no final RawLine — the `done` branch breaks without flushing,
contradicting the claimed flush of a non-empty residual buffer. -/
theorem c4_counterexample :
    (runFeeds ⟨[], []⟩ [[48, 58, 34, 65, 34]]).2 = []
    ∧ (runFeeds ⟨[], []⟩ [[48, 58, 34, 65, 34]]).1.buf = "0:\"A\"".toList
    ∧ streamClose (runFeeds ⟨[], []⟩ [[48, 58, 34, 65, 34]]).1 = []
    ∧ "0:\"A\"".toList ≠ ([] : Chars) :=
  ⟨rfl, rfl, rfl, by decide⟩

/-- C4 (amended): when the transport signals stream close, the read loop
produces no further RawLine regardless of the residual buffer: over a whole
run the emitted lines are exactly the newline-terminated segments of the
decoded stream, and whatever follows the last newline is discarded. -/
theorem c4_close_discards (chunks : List (List Nat)) :
    (runFeeds ⟨[], []⟩ chunks).2 ++ streamClose (runFeeds ⟨[], []⟩ chunks).1
      = (splitNl (decodeChunk [] chunks.flatten).2).dropLast := by
  rw [streamClose, List.append_nil]
  cases chunks with
  | nil => rfl
  | cons c cs =>
    rw [runFeeds_flatten _ _ (by simp)]
    rfl

/-- C5: the dispatcher appends every decoded event to the event log before
any kind-specific handling, so after processing any sequence of events the
log equals the prior log extended by exactly those events in their decode
order, independent of the event kinds. -/
theorem c5_event_log_audit (st : AppState) (evs : List CEvent) :
    (evs.foldl processEvent st).events = st.events ++ evs :=
  foldl_processEvent_events evs st

/-- C6 counterexample: the claim says no Content payload — including falsy
values such as `false` or `0` — is ever dropped; but the reducer appends
`event.data || ''`, so a `false` payload appends nothing: the response text
stays empty although the stringified payload is the non-empty `false`. -/
theorem c6_counterexample :
    (processEvent ⟨[], [], false, 0⟩
        ⟨CType.text, JsValue.vBool false, []⟩).responseText = []
    ∧ jsToString (JsValue.vBool false) = "false".toList := by
  refine ⟨rfl, ?_⟩
  simp [jsToString]

/-- C6 (amended): for a Content event, a truthy payload is coerced to a
string and appended (a string payload as-is, other JSON values via
JavaScript string coercion), while a falsy payload — the empty string, `0`,
`false` or `null` — appends nothing: falsy payloads are dropped by
`event.data || ''`. -/
theorem c6_content_append (st : AppState) (v : JsValue) (raw : Chars) :
    (processEvent st ⟨CType.text, v, raw⟩).responseText
      = st.responseText ++ (if jsTruthy v then jsToString v else []) := rfl

/-- C7 counterexample: for the compact line `0: x` the payload handed to
the JSON parser is the string of a space then `x` — the separator after the
tag is retained — while the claim's strip rule (tag plus one following
whitespace run) yields `x`; the two differ. -/
theorem c7_counterexample :
    (parseStreamEvent ("0: x".toList)).data = " x".toList
    ∧ specStripPayload ("0:".toList) ("0: x".toList) = "x".toList
    ∧ (parseStreamEvent ("0: x".toList)).data
        ≠ specStripPayload ("0:".toList) ("0: x".toList) :=
  ⟨rfl, rfl, by decide⟩

/-- C7 (amended): the compact variant strips exactly the two-character tag
and nothing more — a following separator stays in the payload; the semantic
variant strips the tag and then trims whitespace from both ends of the
remainder, i.e. the spec's strip rule followed by an additional trailing
trim. -/
theorem c7_payload_strip :
    (∀ line : Chars,
      (("0:".toList).isPrefixOf line = true ∨ ("9:".toList).isPrefixOf line = true
        ∨ ("a:".toList).isPrefixOf line = true
        ∨ ("e:".toList).isPrefixOf line = true) →
      (parseStreamEvent line).data = line.drop 2)
    ∧ ∀ p line : Chars, semPayload p line = trimEnd (specStripPayload p line) := by
  constructor
  · intro line h
    rcases h with h | h | h | h
    · rw [parseStreamEvent_content h]; rfl
    · rw [parseStreamEvent_toolCall h]; rfl
    · rw [parseStreamEvent_toolResult h]; rfl
    · rw [parseStreamEvent_endEv h]; rfl
  · intro p line
    rfl

/-- C7 witness: concrete instantiation at the compact line `0: x`. -/
theorem c7_witness :
    (parseStreamEvent ("0: x".toList)).data = ("0: x".toList).drop 2 :=
  c7_payload_strip.1 ("0: x".toList) (Or.inl (by decide))

/-- C8: if cancellation is issued while the loop awaits chunk `k` (with
more chunks still buffered), the session applies exactly the events of the
first `k` chunks — the accumulated text and event log are exactly those
after the last applied event — the run exits by the Aborted path, and no
event of any later chunk is ever applied. -/
theorem c8_cancellation (st : AppState) (chunks : List Chars) (k : Nat)
    (h1 : st.isStreaming = false) (h2 : k < chunks.length) :
    startStream (some k) st chunks
      = ({ runAll (beginSession st) (chunks.take k) with isStreaming := false },
         some .aborted) := by
  rw [startStream, if_neg (by rw [h1]; simp)]
  rw [streamLoop_abort k chunks 0 _ (Nat.zero_le k) (by simpa using h2)]
  simp

/-- C8 witness: cancellation between the first and second chunk of a
two-chunk stream. -/
theorem c8_witness :
    startStream (some 1) ⟨[], [], false, 0⟩
        ["TEXT: \"A\"\n".toList, "TEXT: \"B\"\n".toList]
      = ({ runAll (beginSession ⟨[], [], false, 0⟩)
            (["TEXT: \"A\"\n".toList, "TEXT: \"B\"\n".toList].take 1)
            with isStreaming := false }, some .aborted) :=
  c8_cancellation ⟨[], [], false, 0⟩ _ 1 rfl (by decide)

/-- C9: a transport-level failure ends the debug session by the Errored
path, appends the synthetic failure event to the event log, and preserves
every event recorded before the failure: a read fault at read `k` yields
exactly the events of the first `k` chunks followed by the synthetic event,
and a non-ok response yields the synthetic event alone. -/
theorem c9_transport_error (chunks : List (List Nat)) (k : Nat) (msg : Chars)
    (hk : k ≤ chunks.length) :
    debugRun true chunks (some k) msg
      = ((debugRun true (chunks.take k) none msg).1
          ++ [syntheticErrorEvent msg], .errored)
    ∧ ∀ (cs : List (List Nat)) (e : Option Nat) (m : Chars),
        debugRun false cs e m = ([syntheticErrorEvent m], .errored) := by
  constructor
  · show debugGo msg (some k) (⟨[], []⟩, []) chunks = _
    rw [debugGo_err msg k chunks _ hk]
    rfl
  · intro cs e m
    rfl

/-- C9 witness: a read fault right after the single chunk `0:"A"` plus a
newline has been processed. -/
theorem c9_witness :
    debugRun true [[48, 58, 34, 65, 34, 10]] (some 1) ("boom".toList)
      = ((debugRun true ([[48, 58, 34, 65, 34, 10]].take 1) none
            ("boom".toList)).1
          ++ [syntheticErrorEvent ("boom".toList)], .errored)
    ∧ ∀ (cs : List (List Nat)) (e : Option Nat) (m : Chars),
        debugRun false cs e m = ([syntheticErrorEvent m], .errored) :=
  c9_transport_error [[48, 58, 34, 65, 34, 10]] 1 ("boom".toList) (by decide)

/-- C10: requesting a session start while a stream is already active is a
no-op: the accumulated text, the event log, the streaming flag and the
abort controller are all returned unchanged, and no loop iteration runs. -/
theorem c10_start_noop (abortAt : Option Nat) (st : AppState)
    (chunks : List Chars) (h : st.isStreaming = true) :
    startStream abortAt st chunks = (st, none) := by
  rw [startStream, if_pos h]

/-- C10 witness: a start request against an already-streaming session. -/
theorem c10_witness :
    startStream none ⟨"x".toList, [], true, 3⟩ ["TEXT: \"A\"\n".toList]
      = (⟨"x".toList, [], true, 3⟩, none) :=
  c10_start_noop none ⟨"x".toList, [], true, 3⟩ _ rfl

end SSE
